import Mathlib

/-!
Verification of PaddleNLP transformer modeling code
(`paddlenlp/transformers/nezha/modeling.py` and
`paddlenlp/transformers/electra/modeling.py`).

Tensors are modeled as functions from (bounded) natural-number indices to
exact rationals; where the Python code calls transcendental kernels
(`sin`, `cos`, `exp` inside softmax, `sqrt` inside layer-norm), those
kernels are abstracted as function parameters, so every theorem proved
here holds for the actual real-valued kernels as a special case.
-/

namespace PaddleNLP

/-! ## NeZhaAttention.generate_relative_positions_embeddings
(nezha/modeling.py lines 93-126)

`sinv p i depth` abstracts `np.sin(p / np.power(10000, 2 * i / depth))` and
`cosv p i depth` abstracts `np.cos(p / np.power(10000, 2 * i / depth))`. -/

/-- Model of `range_mat - paddle.t(range_mat)` at position `(i, j)`
(lines 95-99): `range_mat` is the row-major reshape of `arange(length)`
tiled `length` times, so `range_mat[i][j] = j` and the difference at
`(i, j)` is `j - i`. -/
def distance_mat (i j : ℕ) : ℤ :=
  (j : ℤ) - (i : ℤ)

/-- Model of `paddle.clip(x, lo, hi)` on exact integer values (lines 100-104); the
float32 cast is exact for the magnitudes that occur (≤ 511). -/
def clip (lo hi x : ℤ) : ℤ :=
  max lo (min x hi)

/-- Model of `final_mat = distance_mat_clipped + max_relative_position` (line 105). -/
def final_mat (m i j : ℕ) : ℤ :=
  clip (-(m : ℤ)) (m : ℤ) (distance_mat i j) + (m : ℤ)

/-- The bucket index used for the one-hot gather: `final_mat` is
non-negative, so the int64 cast is `Int.toNat`. -/
def bucket (m i j : ℕ) : ℕ :=
  (final_mat m i j).toNat

/-- The `embeddings_table` filled by the double loop at lines 106-111:
a `vocab_size × depth` array starting from `np.zeros`, where only columns
`2*i` and `2*i+1` for `i < depth // 2` are written (`sin` resp. `cos`);
when `depth` is odd the final column keeps its zero initialization.
Column `k` was written iff `k / 2 < depth / 2`. -/
def embeddings_table (sinv cosv : ℕ → ℕ → ℕ → ℚ) (depth pos k : ℕ) : ℚ :=
  if k / 2 < depth / 2 then
    (if k % 2 = 0 then sinv pos (k / 2) depth else cosv pos (k / 2) depth)
  else 0

/-- Model of `paddle.nn.functional.one_hot(idx, num_classes)` at component `k`. -/
def one_hot (num_classes idx k : ℕ) : ℚ :=
  if k = idx ∧ k < num_classes then 1 else 0

/-- Entry `(i, j, k)` of the result of
`generate_relative_positions_embeddings`: the one-hot matrix multiplied
against the embeddings table (lines 113-125), i.e. a gather expressed as a
sum over the `vocab_size = 2*m+1` classes. -/
def gre_entry (sinv cosv : ℕ → ℕ → ℕ → ℚ) (depth m i j k : ℕ) : ℚ :=
  ∑ v in Finset.range (2 * m + 1),
    one_hot (2 * m + 1) (bucket m i j) v * embeddings_table sinv cosv depth v k

/-- Model of `generate_relative_positions_embeddings(length, depth, max_relative_position)`
as the fully reshaped `(length, length, depth)` tensor (lines 93-126). -/
def generate_relative_positions_embeddings (sinv cosv : ℕ → ℕ → ℕ → ℚ)
    (length depth m : ℕ) : List (List (List ℚ)) :=
  (List.range length).map (fun i =>
    (List.range length).map (fun j =>
      (List.range depth).map (fun k => gre_entry sinv cosv depth m i j k)))

/-- The sinusoidal table exactly as the claim words it: for every column
`k < depth`, `T[p, 2i] = sin(p / 10000^(2i/depth))` and
`T[p, 2i+1] = cos(p / 10000^(2i/depth))`, with no column left unwritten. -/
def claim_table (sinv cosv : ℕ → ℕ → ℕ → ℚ) (depth pos k : ℕ) : ℚ :=
  if k % 2 = 0 then sinv pos (k / 2) depth else cosv pos (k / 2) depth

/-- The claim-side entry after the sign amendment: gather `claim_table`
rows by the program's bucket (clipped distance `j - i`). -/
def claim_gre_entry (sinv cosv : ℕ → ℕ → ℕ → ℚ) (depth m i j k : ℕ) : ℚ :=
  claim_table sinv cosv depth (bucket m i j) k

/-- The claim-side `(length, length, depth)` tensor after the sign
amendment. -/
def claim_gre (sinv cosv : ℕ → ℕ → ℕ → ℚ) (length depth m : ℕ) :
    List (List (List ℚ)) :=
  (List.range length).map (fun i =>
    (List.range length).map (fun j =>
      (List.range depth).map (fun k => claim_gre_entry sinv cosv depth m i j k)))

/-- The bucket exactly as the claim words it: distance `D[i,j] = i - j`
clipped to `[-m, m]` and shifted by `m` (the program instead clips and
shifts `j - i`). -/
def claim_bucket (m i j : ℕ) : ℕ :=
  (clip (-(m : ℤ)) (m : ℤ) ((i : ℤ) - (j : ℤ)) + (m : ℤ)).toNat

/-- The `(length, length, depth)` tensor exactly as the claim states it:
gather `claim_table` rows by `claim_bucket`. -/
def claim_gre_stated (sinv cosv : ℕ → ℕ → ℕ → ℚ) (length depth m : ℕ) :
    List (List (List ℚ)) :=
  (List.range length).map (fun i =>
    (List.range length).map (fun j =>
      (List.range depth).map (fun k =>
        claim_table sinv cosv depth (claim_bucket m i j) k)))

lemma bucket_lt (m i j : ℕ) : bucket m i j < 2 * m + 1 := by
  unfold bucket final_mat clip distance_mat
  omega

/-- The one-hot matmul is a gather: summing the indicator row against the
table extracts the `bucket`-th table row. -/
lemma gre_entry_eq_table (sinv cosv : ℕ → ℕ → ℕ → ℚ) (depth m i j k : ℕ) :
    gre_entry sinv cosv depth m i j k =
      embeddings_table sinv cosv depth (bucket m i j) k := by
  unfold gre_entry one_hot
  rw [Finset.sum_eq_single (bucket m i j)]
  · simp [bucket_lt]
  · intro v _ hv
    simp [hv]
  · intro h
    exact absurd (Finset.mem_range.mpr (bucket_lt m i j)) h

lemma gre_eq_claim_of_even (sinv cosv : ℕ → ℕ → ℕ → ℚ) (length depth m : ℕ)
    (hd : depth % 2 = 0) :
    generate_relative_positions_embeddings sinv cosv length depth m =
      claim_gre sinv cosv length depth m := by
  simp only [generate_relative_positions_embeddings, claim_gre]
  apply List.map_congr_left
  intro i _
  apply List.map_congr_left
  intro j _
  apply List.map_congr_left
  intro k hk
  have hk2 : k < depth := List.mem_range.mp hk
  rw [gre_entry_eq_table]
  unfold claim_gre_entry embeddings_table claim_table
  have hlt : k / 2 < depth / 2 := by omega
  simp [hlt]

/-- C1 counterexample: the claim fails on two counts.  (1) Sign: the
program's `range_mat[i][j] = j` (row-major reshape of the tiled arange,
lines 95-98) makes `distance_mat[i][j] = j - i`, not the claimed
`i - j`; at `length = 2, depth = 2, max_relative_position = 1` with the
abstract sine instantiated at `p ↦ p`, the program's entry `(0, 1, 0)`
gathers table row `clip(1-0)+1 = 2` while the claimed construction
gathers row `clip(0-1)+1 = 0`, and `sin` distinguishes rows 2 and 0.
(2) Odd depth: even with the sign fixed (second conjunct, gathering by
the program's own bucket), at `depth = 1` the loop at lines 108-111 runs
`range(depth // 2) = range(0)` zero times, so the numpy-zeros table is
never written and the result is zero, while the claimed formula puts
`sin(p / 10000^0)` in the single column (nonzero at `p = 1` for the real
sine, here witnessed by `p ↦ p`). -/
theorem C1_counterexample :
    (generate_relative_positions_embeddings (fun p _ _ => p) (fun _ _ _ => 1) 2 2 1 ≠
      claim_gre_stated (fun p _ _ => p) (fun _ _ _ => 1) 2 2 1) ∧
    (generate_relative_positions_embeddings (fun p _ _ => p) (fun _ _ _ => 1) 1 1 1 ≠
      claim_gre (fun p _ _ => p) (fun _ _ _ => 1) 1 1 1) := by
  constructor
  · have hb : bucket 1 0 1 = 2 := by decide
    have hcb : claim_bucket 1 0 1 = 0 := by decide
    simp [generate_relative_positions_embeddings, claim_gre_stated,
      gre_entry_eq_table, embeddings_table, claim_table, hb, hcb,
      List.range_succ]
  · have hb : bucket 1 0 0 = 1 := by decide
    simp [generate_relative_positions_embeddings, claim_gre,
      gre_entry_eq_table, claim_gre_entry, embeddings_table, claim_table, hb,
      List.range_succ]

/-- C1 (amended): for every `length ≥ 0`, even `depth` and
`max_relative_position ≥ 0`, `generate_relative_positions_embeddings`
returns exactly the tensor obtained by: building the distance matrix
`D[i,j] = j - i` (not `i - j`; forced by the first counterexample
conjunct) clipped to `[-max_relative_position, max_relative_position]`;
shifting it to `bucket = D + max_relative_position`; building the
sinusoidal table `T[p, 2i] = sin(p / 10000^(2i/depth))`,
`T[p, 2i+1] = cos(...)`; and gathering `T`'s rows by the bucket index
(the restriction to even `depth` is forced by the second counterexample
conjunct: odd `depth` leaves the last table column zero). -/
theorem C1_generate_relative_positions_embeddings_even_depth
    (sinv cosv : ℕ → ℕ → ℕ → ℚ) (length depth m : ℕ) (hd : depth % 2 = 0) :
    generate_relative_positions_embeddings sinv cosv length depth m =
      claim_gre sinv cosv length depth m :=
  gre_eq_claim_of_even sinv cosv length depth m hd

/-- C1 witness: the amended theorem applied at
`length = 2, depth = 2, max_relative_position = 1`. -/
theorem C1_witness :
    generate_relative_positions_embeddings (fun _ _ _ => 1) (fun p _ _ => p) 2 2 1 =
      claim_gre (fun _ _ _ => 1) (fun p _ _ => p) 2 2 1 :=
  C1_generate_relative_positions_embeddings_even_depth
    (fun _ _ _ => 1) (fun p _ _ => (p : ℚ)) 2 2 1 rfl

/-- C4: the relative-position tensor has shape `(length, length, depth)`,
and entry `[i, j]` depends only on the clipped difference
`clip(i - j, -max_relative_position, max_relative_position)`: index pairs
with the same clipped difference carry equal depth-vectors.  The program
gathers by the clipped `j - i`; clipping to the symmetric interval is an
odd map, so equal clipped `i - j` still forces equal buckets. -/
theorem C4_gre_shape_and_clip_invariance (sinv cosv : ℕ → ℕ → ℕ → ℚ)
    (length depth m : ℕ) :
    ((generate_relative_positions_embeddings sinv cosv length depth m).length = length ∧
      ∀ row ∈ generate_relative_positions_embeddings sinv cosv length depth m,
        row.length = length ∧ ∀ cell ∈ row, cell.length = depth) ∧
    (∀ i j i2 j2 k : ℕ,
      clip (-(m : ℤ)) (m : ℤ) ((i : ℤ) - (j : ℤ)) =
        clip (-(m : ℤ)) (m : ℤ) ((i2 : ℤ) - (j2 : ℤ)) →
      gre_entry sinv cosv depth m i j k = gre_entry sinv cosv depth m i2 j2 k) := by
  constructor
  · constructor
    · simp [generate_relative_positions_embeddings]
    · intro row hrow
      simp only [generate_relative_positions_embeddings, List.mem_map] at hrow
      obtain ⟨i, _, hi⟩ := hrow
      subst hi
      constructor
      · simp
      · intro cell hcell
        simp only [List.mem_map] at hcell
        obtain ⟨j, _, hj⟩ := hcell
        subst hj
        simp
  · intro i j i2 j2 k hclip
    rw [gre_entry_eq_table, gre_entry_eq_table]
    have hodd : ∀ x : ℤ, clip (-(m : ℤ)) (m : ℤ) (-x) =
        -clip (-(m : ℤ)) (m : ℤ) x := by
      intro x
      unfold clip
      omega
    have hb : bucket m i j = bucket m i2 j2 := by
      unfold bucket final_mat distance_mat
      have h1 : (j : ℤ) - (i : ℤ) = -((i : ℤ) - (j : ℤ)) := by ring
      have h2 : (j2 : ℤ) - (i2 : ℤ) = -((i2 : ℤ) - (j2 : ℤ)) := by ring
      rw [h1, h2, hodd, hodd, hclip]
    rw [hb]

/-- C4 witness: the pairs `(0, 1)` and `(1, 2)` have the same clipped
difference `-1`, hence equal entries. -/
theorem C4_witness :
    gre_entry (fun _ _ _ => 1) (fun p _ _ => p) 2 1 0 1 0 =
      gre_entry (fun _ _ _ => 1) (fun p _ _ => p) 2 1 1 2 0 :=
  (C4_gre_shape_and_clip_invariance (fun _ _ _ => 1) (fun p _ _ => (p : ℚ)) 3 2 1).2
    0 1 1 2 0 (by decide)

/-! ## NeZhaAttention.__init__ (nezha/modeling.py lines 64-91) -/

/-- The state a `NeZhaAttention` module holds after construction, as far as
the sizes and the relative-position table are concerned (the projection
weights are framework-initialized parameters, abstracted elsewhere). -/
structure NeZhaAttentionState where
  num_attention_heads : ℕ
  attention_head_size : ℕ
  all_head_size : ℕ
  relative_positions_embeddings : List (List (List ℚ))

/-- Model of `NeZhaAttention.__init__` (lines 72-91): raise `ValueError` when
`hidden_size % num_attention_heads != 0`, otherwise set
`attention_head_size = hidden_size // num_attention_heads` and precompute
`relative_positions_embeddings` with `length` hardcoded to `512` (lines
84-86); `max_position_embeddings` is not even a parameter. -/
def NeZhaAttention_init (sinv cosv : ℕ → ℕ → ℕ → ℚ)
    (hidden_size num_attention_heads max_relative_position : ℕ) :
    Except String NeZhaAttentionState :=
  if hidden_size % num_attention_heads ≠ 0 then
    Except.error "The hidden size is not a multiple of the number of attention heads"
  else
    Except.ok
      { num_attention_heads := num_attention_heads
        attention_head_size := hidden_size / num_attention_heads
        all_head_size := num_attention_heads * (hidden_size / num_attention_heads)
        relative_positions_embeddings :=
          generate_relative_positions_embeddings sinv cosv 512
            (hidden_size / num_attention_heads) max_relative_position }

/-- Model of `self.relative_positions_embeddings.detach().clone()[:to_seq_length, :to_seq_length, :]`
(lines 149 and 177): numpy-style slicing takes at most the first
`to_seq_length` rows and columns. -/
def slice_table (t : List (List (List ℚ))) (to_seq_length : ℕ) :
    List (List (List ℚ)) :=
  (t.take to_seq_length).map (fun row => row.take to_seq_length)

/-- C6: construction fails exactly when `hidden_size` is not divisible by
`num_attention_heads` (for a positive head count, as Python `%` by zero
would itself raise), and on success `attention_head_size` is the exact
quotient. -/
theorem C6_init_divisibility_guard (sinv cosv : ℕ → ℕ → ℕ → ℚ)
    (hidden_size num_attention_heads max_relative_position : ℕ)
    (hpos : 0 < num_attention_heads) :
    ((NeZhaAttention_init sinv cosv hidden_size num_attention_heads
        max_relative_position).isOk ↔ num_attention_heads ∣ hidden_size) ∧
    (∀ st, NeZhaAttention_init sinv cosv hidden_size num_attention_heads
        max_relative_position = Except.ok st →
      st.attention_head_size = hidden_size / num_attention_heads) := by
  unfold NeZhaAttention_init
  by_cases hmod : hidden_size % num_attention_heads = 0
  · constructor
    · simp [hmod, Except.isOk, Except.toBool, Nat.dvd_iff_mod_eq_zero]
    · intro st hst
      simp only [hmod, ne_eq, not_true_eq_false, if_false] at hst
      cases hst
      rfl
  · constructor
    · simp [hmod, Except.isOk, Except.toBool, Nat.dvd_iff_mod_eq_zero]
    · intro st hst
      simp [hmod] at hst

/-- C6 witness: `hidden_size = 6`, `num_attention_heads = 2` constructs
successfully with `attention_head_size = 3`. -/
theorem C6_witness :
    ((NeZhaAttention_init (fun _ _ _ => 1) (fun _ _ _ => 1) 6 2 0).isOk ↔
      2 ∣ 6) ∧
    (∀ st, NeZhaAttention_init (fun _ _ _ => 1) (fun _ _ _ => 1) 6 2 0 =
        Except.ok st → st.attention_head_size = 6 / 2) :=
  C6_init_divisibility_guard (fun _ _ _ => 1) (fun _ _ _ => 1) 6 2 0 (by decide)

set_option maxRecDepth 4000 in
/-- C5: the table is built once at construction with length hardcoded to
512 (whatever the configured maximum position is — the constructor does
not receive it); slicing it to `to_seq_length ≤ 512` yields a full
`to_seq_length × to_seq_length` block, while `to_seq_length > 512` leaves
fewer than `to_seq_length` rows — the out-of-bounds fault of the
subsequent reshape in `forward`. -/
theorem C5_table_hardcoded_512 (sinv cosv : ℕ → ℕ → ℕ → ℚ)
    (hidden_size num_attention_heads max_relative_position : ℕ)
    (st : NeZhaAttentionState)
    (h : NeZhaAttention_init sinv cosv hidden_size num_attention_heads
        max_relative_position = Except.ok st) :
    st.relative_positions_embeddings =
      generate_relative_positions_embeddings sinv cosv 512
        (hidden_size / num_attention_heads) max_relative_position ∧
    (∀ seq_len : ℕ, seq_len ≤ 512 →
      (slice_table st.relative_positions_embeddings seq_len).length = seq_len ∧
      ∀ row ∈ slice_table st.relative_positions_embeddings seq_len,
        row.length = seq_len) ∧
    (∀ seq_len : ℕ, 512 < seq_len →
      (slice_table st.relative_positions_embeddings seq_len).length < seq_len) := by
  have htab : st.relative_positions_embeddings =
      generate_relative_positions_embeddings sinv cosv 512
        (hidden_size / num_attention_heads) max_relative_position := by
    unfold NeZhaAttention_init at h
    split at h
    · cases h
    · cases h
      rfl
  refine ⟨htab, ?_, ?_⟩
  · intro seq_len hle
    constructor
    · simp [htab, slice_table, generate_relative_positions_embeddings]
      omega
    · intro row hrow
      simp only [htab, slice_table, List.mem_map] at hrow
      obtain ⟨row0, hrow0, hr⟩ := hrow
      have hrow1 := List.take_subset _ _ hrow0
      simp only [generate_relative_positions_embeddings, List.mem_map] at hrow1
      obtain ⟨i, _, hi⟩ := hrow1
      subst hr
      subst hi
      simp
      omega
  · intro seq_len hgt
    simp [htab, slice_table, generate_relative_positions_embeddings]
    omega

/-- C5 witness: a concrete successful construction with
`hidden_size = 1`, one head, `max_relative_position = 0`. -/
theorem C5_witness :
    (NeZhaAttentionState.relative_positions_embeddings
        ⟨1, 1, 1, generate_relative_positions_embeddings
          (fun _ _ _ => 1) (fun _ _ _ => 1) 512 1 0⟩ =
      generate_relative_positions_embeddings (fun _ _ _ => 1) (fun _ _ _ => 1)
        512 (1 / 1) 0) ∧
    (∀ seq_len : ℕ, seq_len ≤ 512 →
      (slice_table (NeZhaAttentionState.relative_positions_embeddings
          ⟨1, 1, 1, generate_relative_positions_embeddings
            (fun _ _ _ => 1) (fun _ _ _ => 1) 512 1 0⟩) seq_len).length = seq_len ∧
      ∀ row ∈ slice_table (NeZhaAttentionState.relative_positions_embeddings
          ⟨1, 1, 1, generate_relative_positions_embeddings
            (fun _ _ _ => 1) (fun _ _ _ => 1) 512 1 0⟩) seq_len,
        row.length = seq_len) ∧
    (∀ seq_len : ℕ, 512 < seq_len →
      (slice_table (NeZhaAttentionState.relative_positions_embeddings
          ⟨1, 1, 1, generate_relative_positions_embeddings
            (fun _ _ _ => 1) (fun _ _ _ => 1) 512 1 0⟩) seq_len).length < seq_len) :=
  C5_table_hardcoded_512 (fun _ _ _ => 1) (fun _ _ _ => 1) 1 1 0 _ rfl

/-! ## ElectraForTotalPretraining.sample_from_softmax
(electra/modeling.py lines 941-953)

`expf` abstracts the exponential inside `F.softmax`; the Gumbel noise of
the sampling branch is abstracted as the `noise` argument (the
`use_softmax_sample = False` branch zeroes it, line 948). -/

/-- Model of `paddle.argmax(x, axis=-1)` over an axis of length `V`: the index of
the maximum value, first occurrence winning ties. -/
def argmaxQ (V : ℕ) (x : ℕ → ℚ) : ℕ :=
  (List.range V).foldl (fun best i => if x best < x i then i else best) 0

/-- Model of `F.softmax(x)` over an axis of length `V`, with abstract exponential
`expf`: entry `i` is `expf (x i)` over the sum of all `expf (x j)`. -/
def softmaxQ (expf : ℚ → ℚ) (V : ℕ) (x : ℕ → ℚ) (i : ℕ) : ℚ :=
  expf (x i) / ∑ j in Finset.range V, expf (x j)

/-- Model of `sample_from_softmax(logits, use_softmax_sample)` (lines 941-953):
perturb the logits by Gumbel noise (zero when sampling is disabled), take
`argmax` of the softmax, and return the one-hot encoding. -/
def sample_from_softmax (expf : ℚ → ℚ) (V : ℕ) (noise logits : ℕ → ℚ)
    (use_softmax_sample : Bool) : ℕ → ℚ :=
  let gumbel_noise : ℕ → ℚ := if use_softmax_sample then noise else fun _ => 0
  fun k =>
    one_hot V (argmaxQ V (softmaxQ expf V (fun i => logits i + gumbel_noise i))) k

lemma foldl_argmax_congr (x y : ℕ → ℚ) :
    ∀ (l : List ℕ) (b : ℕ),
      (∀ i ∈ l, ∀ j, (j ∈ l ∨ j = b) → (x j < x i ↔ y j < y i)) →
      l.foldl (fun best i => if x best < x i then i else best) b =
        l.foldl (fun best i => if y best < y i then i else best) b := by
  intro l
  induction l with
  | nil => intro b _; rfl
  | cons a t ih =>
    intro b h
    simp only [List.foldl_cons]
    have hab : x b < x a ↔ y b < y a := h a (List.mem_cons_self a t) b (Or.inr rfl)
    by_cases hc : x b < x a
    · rw [if_pos hc, if_pos (hab.mp hc)]
      apply ih
      intro i hi j hj
      refine h i (List.mem_cons_of_mem _ hi) j ?_
      cases hj with
      | inl hj => exact Or.inl (List.mem_cons_of_mem _ hj)
      | inr hj =>
        subst hj
        exact Or.inl (List.mem_cons_self _ _)
    · rw [if_neg hc, if_neg (fun hy => hc (hab.mpr hy))]
      apply ih
      intro i hi j hj
      refine h i (List.mem_cons_of_mem _ hi) j ?_
      cases hj with
      | inl hj => exact Or.inl (List.mem_cons_of_mem _ hj)
      | inr hj => exact Or.inr hj

/-- C9: with `use_softmax_sample=False` the Gumbel noise is zero and
`sample_from_softmax` returns the one-hot of the argmax of the raw
logits: softmax (any positive, strictly order-preserving exponential over
a positive denominator) does not change the argmax. -/
theorem C9_sample_from_softmax_argmax (expf : ℚ → ℚ) (V : ℕ)
    (noise logits : ℕ → ℚ) (hV : 0 < V)
    (hpos : ∀ i, i < V → 0 < expf (logits i))
    (hmono : ∀ i j, i < V → j < V →
      (logits i < logits j ↔ expf (logits i) < expf (logits j))) :
    sample_from_softmax expf V noise logits false =
      fun k => one_hot V (argmaxQ V logits) k := by
  unfold sample_from_softmax
  simp only [Bool.false_eq_true, if_false, add_zero]
  have hS : 0 < ∑ j in Finset.range V, expf (logits j) :=
    Finset.sum_pos (fun j hj => hpos j (Finset.mem_range.mp hj))
      ⟨0, Finset.mem_range.mpr hV⟩
  have harg : argmaxQ V (softmaxQ expf V logits) = argmaxQ V logits := by
    unfold argmaxQ
    apply foldl_argmax_congr
    intro i hi j hj
    have hi2 : i < V := List.mem_range.mp hi
    have hj2 : j < V := by
      cases hj with
      | inl hj => exact List.mem_range.mp hj
      | inr hj => exact hj ▸ hV
    unfold softmaxQ
    rw [div_lt_div_iff_of_pos_right hS]
    exact ((hmono j i hj2 hi2)).symm
  rw [harg]

/-- C9 witness: three-class logits `[2, 7, 3]` with the identity as the
(order-preserving, positive on these values) exponential. -/
theorem C9_witness :
    sample_from_softmax (fun q => q) 3 (fun _ => 0)
        (fun i => if i = 0 then 2 else if i = 1 then 7 else 3) false =
      fun k => one_hot 3
        (argmaxQ 3 (fun i => if i = 0 then 2 else if i = 1 then 7 else 3)) k :=
  C9_sample_from_softmax_argmax (fun q => q) 3 (fun _ => 0)
    (fun i => if i = 0 then 2 else if i = 1 then 7 else 3)
    (by decide) (by decide) (fun i j _ _ => Iff.rfl)

/-! ## ElectraForTotalPretraining.get_discriminator_inputs / update_inputs
(electra/modeling.py lines 920-967)

The `[B, L]` token tensors are flattened to functions of a single
position index; token ids are integers. -/

/-- Model of `mask_positions = paddle.where(gen_labels == -100, zeros, ones)`
(lines 930-933). -/
def mask_positions (gen_labels : ℕ → ℤ) : ℕ → ℤ :=
  fun p => if gen_labels p = -100 then 0 else 1

/-- Model of `update_inputs(sequence, updates, positions)` (lines 955-967):
`(1 - positions) * sequence + positions * updates`. -/
def update_inputs (sequence updates positions : ℕ → ℤ) : ℕ → ℤ :=
  fun p => (1 - positions p) * sequence p + positions p * updates p

/-- Model of `sampled_tokids = paddle.argmax(sample_from_softmax(...), axis=-1)`
(lines 925-926), per position. -/
def sampled_tokids (expf : ℚ → ℚ) (V : ℕ) (noise gen_logits : ℕ → ℕ → ℚ)
    (use_softmax_sample : Bool) : ℕ → ℤ :=
  fun p =>
    (argmaxQ V (sample_from_softmax expf V (noise p) (gen_logits p)
      use_softmax_sample) : ℤ)

/-- Model of `get_discriminator_inputs` (lines 920-939): substitute sampled tokens
at masked positions and label a position `1` when the updated token
differs from the raw token (`mask * (1 - equal(updated, raw))`). -/
def get_discriminator_inputs (expf : ℚ → ℚ) (V : ℕ)
    (noise : ℕ → ℕ → ℚ) (inputs raw_inputs : ℕ → ℤ)
    (gen_logits : ℕ → ℕ → ℚ) (gen_labels : ℕ → ℤ)
    (use_softmax_sample : Bool) : (ℕ → ℤ) × (ℕ → ℤ) :=
  let tokids := sampled_tokids expf V noise gen_logits use_softmax_sample
  let updated_inputs := update_inputs inputs tokids (mask_positions gen_labels)
  let labels := fun p =>
    mask_positions gen_labels p *
      (1 - (if updated_inputs p = raw_inputs p then 1 else 0))
  (updated_inputs, labels)

/-- C8: the discriminator input keeps the original token exactly at
sentinel (`-100`) positions and takes the sampled token elsewhere, and
the discriminator label is `1` exactly at masked positions whose
substituted token differs from the raw token, else `0`. -/
theorem C8_get_discriminator_inputs (expf : ℚ → ℚ) (V : ℕ)
    (noise : ℕ → ℕ → ℚ) (inputs raw_inputs : ℕ → ℤ)
    (gen_logits : ℕ → ℕ → ℚ) (gen_labels : ℕ → ℤ)
    (use_softmax_sample : Bool) (p : ℕ) :
    ((get_discriminator_inputs expf V noise inputs raw_inputs gen_logits
        gen_labels use_softmax_sample).1 p =
      if gen_labels p = -100 then inputs p
      else sampled_tokids expf V noise gen_logits use_softmax_sample p) ∧
    ((get_discriminator_inputs expf V noise inputs raw_inputs gen_logits
        gen_labels use_softmax_sample).2 p =
      if gen_labels p ≠ -100 ∧
          (get_discriminator_inputs expf V noise inputs raw_inputs gen_logits
            gen_labels use_softmax_sample).1 p ≠ raw_inputs p
        then 1 else 0) := by
  unfold get_discriminator_inputs update_inputs mask_positions
  by_cases hs : gen_labels p = -100
  · constructor
    · simp [hs]
    · simp [hs]
  · constructor
    · simp [hs]
    · simp only [hs, if_false, ne_eq, not_false_eq_true, true_and, one_mul,
        sub_zero, zero_mul, zero_add, one_mul, sub_self, zero_mul, mul_one]
      by_cases hu : sampled_tokids expf V noise gen_logits use_softmax_sample p =
          raw_inputs p
      · simp [hu]
      · simp [hu]

/-! ## ElectraPretrainingCriterion.forward
(electra/modeling.py lines 1046-1104)

The per-position cross-entropy values (`gen_loss_fct`, reduction `none`,
which zeroes sentinel positions through its `ignore_index=-100`) and the
per-position binary cross-entropy values (`disc_loss_fct`) are abstracted
as the vectors `gen_loss_vec` and `disc_loss_vec`; the `[B, L]` tensors
are flattened to `n = B * L` positions. -/

/-- Model of `ElectraPretrainingCriterion.forward` (lines 1046-1104): zero the
generator loss when no position is masked, otherwise divide the summed
cross-entropy by the number of masked positions; divide the discriminator
loss by the number of attended positions, or by the total element count
when `attention_mask` is `None`; combine with the two weights. -/
def criterion_forward (gen_weight disc_weight : ℚ) (n : ℕ)
    (gen_loss_vec : ℕ → ℚ) (generator_labels : ℕ → ℤ)
    (disc_loss_vec : ℕ → ℚ) (attention_mask : Option (ℕ → Bool)) : ℚ :=
  let mask_sum : ℚ :=
    ∑ p in Finset.range n, (if generator_labels p = -100 then 0 else 1)
  let gen_loss : ℚ :=
    if mask_sum = 0 then 0
    else (∑ p in Finset.range n, gen_loss_vec p) / mask_sum
  let disc_loss : ℚ :=
    match attention_mask with
    | some am =>
        (∑ p in Finset.range n, (if am p then disc_loss_vec p else 0)) /
          (∑ p in Finset.range n, (if am p then (1 : ℚ) else 0))
    | none =>
        (∑ p in Finset.range n, disc_loss_vec p) /
          (∑ p in Finset.range n, (1 : ℚ))
  gen_weight * gen_loss + disc_weight * disc_loss

lemma criterion_mask_sum_eq_card (generator_labels : ℕ → ℤ) (n : ℕ) :
    (∑ p in Finset.range n,
        (if generator_labels p = -100 then (0 : ℚ) else 1)) =
      ((Finset.range n).filter (fun p => generator_labels p ≠ -100)).card := by
  rw [← Finset.sum_boole]
  apply Finset.sum_congr rfl
  intro p _
  by_cases h : generator_labels p = -100
  · simp [h]
  · simp [h]

/-- C7: the criterion returns
`gen_weight * gen_loss + disc_weight * disc_loss` where the generator
loss is exactly `0` when every label is the sentinel `-100` and otherwise
the summed cross-entropy over the count of non-sentinel positions, and
the discriminator denominator is the total element count when
`attention_mask` is `None` and otherwise the number of mask-true
positions (only which contribute to the numerator). -/
theorem C7_criterion_forward (gen_weight disc_weight : ℚ) (n : ℕ)
    (gen_loss_vec : ℕ → ℚ) (generator_labels : ℕ → ℤ)
    (disc_loss_vec : ℕ → ℚ) (attention_mask : Option (ℕ → Bool)) :
    criterion_forward gen_weight disc_weight n gen_loss_vec generator_labels
        disc_loss_vec attention_mask =
      gen_weight *
        (if ∀ p ∈ Finset.range n, generator_labels p = -100 then 0
         else (∑ p in Finset.range n, gen_loss_vec p) /
           (((Finset.range n).filter (fun p => generator_labels p ≠ -100)).card : ℚ)) +
      disc_weight *
        (match attention_mask with
         | some am =>
             (∑ p in (Finset.range n).filter (fun p => am p = true),
                 disc_loss_vec p) /
               (((Finset.range n).filter (fun p => am p = true)).card : ℚ)
         | none => (∑ p in Finset.range n, disc_loss_vec p) / (n : ℚ)) := by
  simp only [criterion_forward]
  rw [criterion_mask_sum_eq_card]
  have hiff :
      ((((Finset.range n).filter (fun p => generator_labels p ≠ -100)).card : ℚ) = 0) ↔
        (∀ p ∈ Finset.range n, generator_labels p = -100) := by
    rw [Nat.cast_eq_zero, Finset.card_eq_zero, Finset.filter_eq_empty_iff]
    constructor
    · intro h p hp
      by_contra hne
      exact h hp hne
    · intro h p hp hne
      exact hne (h p hp)
  have hgen :
      (if ((((Finset.range n).filter (fun p => generator_labels p ≠ -100)).card : ℚ)) = 0
          then (0 : ℚ)
          else (∑ p in Finset.range n, gen_loss_vec p) /
            (((Finset.range n).filter (fun p => generator_labels p ≠ -100)).card : ℚ)) =
        (if ∀ p ∈ Finset.range n, generator_labels p = -100 then (0 : ℚ)
          else (∑ p in Finset.range n, gen_loss_vec p) /
            (((Finset.range n).filter (fun p => generator_labels p ≠ -100)).card : ℚ)) := by
    by_cases hall : ∀ p ∈ Finset.range n, generator_labels p = -100
    · rw [if_pos (hiff.mpr hall), if_pos hall]
    · rw [if_neg (fun hc => hall (hiff.mp hc)), if_neg hall]
  rw [hgen]
  congr 1
  congr 1
  cases attention_mask with
  | none => simp
  | some am =>
    simp only
    congr 1
    · rw [Finset.sum_filter]
    · rw [Finset.sum_boole]

/-! ## NeZhaAttention.forward (nezha/modeling.py lines 128-200)

Tensors are index functions; `expf` abstracts the exponential inside
`nn.Softmax`, `sqrtf` the square root inside `nn.LayerNorm`, and
`sqrt_head` the scalar `math.sqrt(self.attention_head_size)`.  Dropout
layers are the identity (evaluation mode / dropout disabled, which is
the regime every claim about exact values addresses).  The
relative-position table is the function view of the module's
`relative_positions_embeddings`; the slices at lines 149 and 177 read
indices below `to_seq_length` only, which the bounded sums reflect. -/

/-- The parameter tensors a `NeZhaAttention` module owns. -/
structure NeZhaAttnParams where
  num_attention_heads : ℕ
  attention_head_size : ℕ
  query_w : ℕ → ℕ → ℚ
  query_b : ℕ → ℚ
  key_w : ℕ → ℕ → ℚ
  key_b : ℕ → ℚ
  value_w : ℕ → ℕ → ℚ
  value_b : ℕ → ℚ
  dense_w : ℕ → ℕ → ℚ
  dense_b : ℕ → ℚ
  ln_weight : ℕ → ℚ
  ln_bias : ℕ → ℚ
  ln_eps : ℚ
  relative_positions_embeddings : ℕ → ℕ → ℕ → ℚ

/-- Model of `nn.Linear` on the last axis: `y = x @ W + b` with `W : (in, out)`. -/
def linearQ (in_features : ℕ) (w : ℕ → ℕ → ℚ) (b : ℕ → ℚ) (x : ℕ → ℚ)
    (h : ℕ) : ℚ :=
  (∑ k in Finset.range in_features, x k * w k h) + b h

/-- Model of `self.query(hidden_states)` (line 134). -/
def mixed_query_layer (p : NeZhaAttnParams) (hs : ℕ → ℕ → ℕ → ℚ)
    (b s h : ℕ) : ℚ :=
  linearQ (p.num_attention_heads * p.attention_head_size) p.query_w p.query_b
    (hs b s) h

/-- Model of `self.key(hidden_states)` (line 135). -/
def mixed_key_layer (p : NeZhaAttnParams) (hs : ℕ → ℕ → ℕ → ℚ)
    (b s h : ℕ) : ℚ :=
  linearQ (p.num_attention_heads * p.attention_head_size) p.key_w p.key_b
    (hs b s) h

/-- Model of `self.value(hidden_states)` (line 136). -/
def mixed_value_layer (p : NeZhaAttnParams) (hs : ℕ → ℕ → ℕ → ℚ)
    (b s h : ℕ) : ℚ :=
  linearQ (p.num_attention_heads * p.attention_head_size) p.value_w p.value_b
    (hs b s) h

/-- Model of `transpose_for_scores` (lines 128-131): reshape `(B, S, H)` to
`(B, S, heads, head_size)` and transpose to `(B, heads, S, head_size)`. -/
def transpose_for_scores (p : NeZhaAttnParams) (x : ℕ → ℕ → ℕ → ℚ)
    (b n s d : ℕ) : ℚ :=
  x b s (n * p.attention_head_size + d)

/-- Model of `query_layer` (line 138). -/
def query_layer (p : NeZhaAttnParams) (hs : ℕ → ℕ → ℕ → ℚ)
    (b n s d : ℕ) : ℚ :=
  transpose_for_scores p (mixed_query_layer p hs) b n s d

/-- Model of `key_layer` (line 139). -/
def key_layer (p : NeZhaAttnParams) (hs : ℕ → ℕ → ℕ → ℚ)
    (b n s d : ℕ) : ℚ :=
  transpose_for_scores p (mixed_key_layer p hs) b n s d

/-- Model of `value_layer` (line 140). -/
def value_layer (p : NeZhaAttnParams) (hs : ℕ → ℕ → ℕ → ℚ)
    (b n s d : ℕ) : ℚ :=
  transpose_for_scores p (mixed_value_layer p hs) b n s d

/-- Content-content logits `query_layer @ key_layer^T` (lines 143-146). -/
def attention_scores_cc (p : NeZhaAttnParams) (hs : ℕ → ℕ → ℕ → ℚ)
    (b n i j : ℕ) : ℚ :=
  ∑ d in Finset.range p.attention_head_size,
    query_layer p hs b n i d * key_layer p hs b n j d

/-- Model of `query_layer_r` (lines 151-155): transpose `(2,0,1,3)` then reshape
`(S, B*heads, head_size)`; the flattened batch-head index `bn` splits
row-major as `bn = b * heads + n`. -/
def query_layer_r (p : NeZhaAttnParams) (hs : ℕ → ℕ → ℕ → ℚ)
    (i bn d : ℕ) : ℚ :=
  query_layer p hs (bn / p.num_attention_heads) (bn % p.num_attention_heads) i d

/-- Model of `key_position_scores` (lines 156-159): batched matmul of
`query_layer_r` against the sliced table transposed `(0,2,1)`. -/
def key_position_scores (p : NeZhaAttnParams) (hs : ℕ → ℕ → ℕ → ℚ)
    (i bn j : ℕ) : ℚ :=
  ∑ d in Finset.range p.attention_head_size,
    query_layer_r p hs i bn d * p.relative_positions_embeddings i j d

/-- Model of `key_position_scores_r_t` (lines 160-163): reshape back to
`(S, B, heads, S)` and transpose `(1,2,0,3)`. -/
def key_position_scores_r_t (p : NeZhaAttnParams) (hs : ℕ → ℕ → ℕ → ℚ)
    (b n i j : ℕ) : ℚ :=
  key_position_scores p hs i (b * p.num_attention_heads + n) j

/-- The final `attention_scores` (lines 164-166): add the position
scores, divide by `math.sqrt(attention_head_size)`, add the mask.  This
is the second value `forward` returns. -/
def attention_scores (p : NeZhaAttnParams) (sqrt_head : ℚ)
    (hs : ℕ → ℕ → ℕ → ℚ) (mask : ℕ → ℕ → ℕ → ℕ → ℚ) (b n i j : ℕ) : ℚ :=
  (attention_scores_cc p hs b n i j + key_position_scores_r_t p hs b n i j) /
      sqrt_head +
    mask b n i j

/-- Model of `attention_probs = nn.Softmax(axis=-1)(attention_scores)` (line 169);
the attention dropout (line 173) is the identity in evaluation mode. -/
def attention_probs (p : NeZhaAttnParams) (expf : ℚ → ℚ) (sqrt_head : ℚ)
    (S : ℕ) (hs : ℕ → ℕ → ℕ → ℚ) (mask : ℕ → ℕ → ℕ → ℕ → ℚ)
    (b n i j : ℕ) : ℚ :=
  expf (attention_scores p sqrt_head hs mask b n i j) /
    ∑ j2 in Finset.range S, expf (attention_scores p sqrt_head hs mask b n i j2)

/-- Model of `context_layer = paddle.matmul(attention_probs, value_layer)`
(line 175). -/
def context_layer_c (p : NeZhaAttnParams) (expf : ℚ → ℚ) (sqrt_head : ℚ)
    (S : ℕ) (hs : ℕ → ℕ → ℕ → ℚ) (mask : ℕ → ℕ → ℕ → ℕ → ℚ)
    (b n i d : ℕ) : ℚ :=
  ∑ j in Finset.range S,
    attention_probs p expf sqrt_head S hs mask b n i j * value_layer p hs b n j d

/-- Model of `attentions_probs_r` (lines 178-181): transpose `(2,0,1,3)` and
reshape `(S, B*heads, S)`. -/
def attention_probs_r (p : NeZhaAttnParams) (expf : ℚ → ℚ) (sqrt_head : ℚ)
    (S : ℕ) (hs : ℕ → ℕ → ℕ → ℚ) (mask : ℕ → ℕ → ℕ → ℕ → ℚ)
    (i bn j : ℕ) : ℚ :=
  attention_probs p expf sqrt_head S hs mask (bn / p.num_attention_heads)
    (bn % p.num_attention_heads) i j

/-- Model of `value_position_scores` (line 182). -/
def value_position_scores (p : NeZhaAttnParams) (expf : ℚ → ℚ)
    (sqrt_head : ℚ) (S : ℕ) (hs : ℕ → ℕ → ℕ → ℚ)
    (mask : ℕ → ℕ → ℕ → ℕ → ℚ) (i bn d : ℕ) : ℚ :=
  ∑ j in Finset.range S,
    attention_probs_r p expf sqrt_head S hs mask i bn j *
      p.relative_positions_embeddings i j d

/-- Model of `value_position_scores_r_t` (lines 183-187): reshape to
`(S, B, heads, head_size)` and transpose `(1,2,0,3)`. -/
def value_position_scores_r_t (p : NeZhaAttnParams) (expf : ℚ → ℚ)
    (sqrt_head : ℚ) (S : ℕ) (hs : ℕ → ℕ → ℕ → ℚ)
    (mask : ℕ → ℕ → ℕ → ℕ → ℚ) (b n i d : ℕ) : ℚ :=
  value_position_scores p expf sqrt_head S hs mask i
    (b * p.num_attention_heads + n) d

/-- Model of `context_layer = context_layer + value_position_scores_r_t`
(line 188). -/
def context_layer (p : NeZhaAttnParams) (expf : ℚ → ℚ) (sqrt_head : ℚ)
    (S : ℕ) (hs : ℕ → ℕ → ℕ → ℚ) (mask : ℕ → ℕ → ℕ → ℕ → ℚ)
    (b n i d : ℕ) : ℚ :=
  context_layer_c p expf sqrt_head S hs mask b n i d +
    value_position_scores_r_t p expf sqrt_head S hs mask b n i d

/-- Lines 190-192: transpose `(0,2,1,3)` and merge the head axes back to
the hidden axis, `h = n * head_size + d`. -/
def context_layer_merged (p : NeZhaAttnParams) (expf : ℚ → ℚ)
    (sqrt_head : ℚ) (S : ℕ) (hs : ℕ → ℕ → ℕ → ℚ)
    (mask : ℕ → ℕ → ℕ → ℕ → ℚ) (b s h : ℕ) : ℚ :=
  context_layer p expf sqrt_head S hs mask b (h / p.attention_head_size) s
    (h % p.attention_head_size)

/-- Model of `projected_context_layer = self.dense(context_layer)` (line 194). -/
def projected_context_layer (p : NeZhaAttnParams) (expf : ℚ → ℚ)
    (sqrt_head : ℚ) (S : ℕ) (hs : ℕ → ℕ → ℕ → ℚ)
    (mask : ℕ → ℕ → ℕ → ℕ → ℚ) (b s h : ℕ) : ℚ :=
  linearQ (p.num_attention_heads * p.attention_head_size) p.dense_w p.dense_b
    (fun k => context_layer_merged p expf sqrt_head S hs mask b s k) h

/-- Model of `nn.LayerNorm` over a last axis of size `hidden_size`, with abstract
square root `sqrtf`. -/
def layer_norm (hidden_size : ℕ) (gamma beta : ℕ → ℚ) (eps : ℚ)
    (sqrtf : ℚ → ℚ) (x : ℕ → ℚ) (h : ℕ) : ℚ :=
  let mean := (∑ k in Finset.range hidden_size, x k) / (hidden_size : ℚ)
  let variance :=
    (∑ k in Finset.range hidden_size, (x k - mean) ^ 2) / (hidden_size : ℚ)
  gamma h * ((x h - mean) / sqrtf (variance + eps)) + beta h

/-- Model of `NeZhaAttention.forward` (lines 133-200): returns the layer-normed
residual output (output dropout, line 195, is the identity in evaluation
mode) together with the post-mask, pre-softmax `attention_scores`. -/
def nezha_attention_forward (p : NeZhaAttnParams) (expf sqrtf : ℚ → ℚ)
    (sqrt_head : ℚ) (S : ℕ) (hs : ℕ → ℕ → ℕ → ℚ)
    (mask : ℕ → ℕ → ℕ → ℕ → ℚ) :
    (ℕ → ℕ → ℕ → ℚ) × (ℕ → ℕ → ℕ → ℕ → ℚ) :=
  (fun b s h =>
    layer_norm (p.num_attention_heads * p.attention_head_size) p.ln_weight
      p.ln_bias p.ln_eps sqrtf
      (fun k => hs b s k + projected_context_layer p expf sqrt_head S hs mask b s k)
      h,
   fun b n i j => attention_scores p sqrt_head hs mask b n i j)

/-- The content-position logits as the claim words them: the query
vector at `(b, n, i)` dotted against the sliced position-bias vector
`table[i, j, :]`. -/
def claim_content_position_logits (p : NeZhaAttnParams)
    (hs : ℕ → ℕ → ℕ → ℚ) (b n i j : ℕ) : ℚ :=
  ∑ d in Finset.range p.attention_head_size,
    query_layer p hs b n i d * p.relative_positions_embeddings i j d

/-- The combined pre-softmax logits as the claim words them:
content-content plus content-position, divided by
`sqrt(attention_head_size)`, plus the additive mask. -/
def claim_combined_logits (p : NeZhaAttnParams) (sqrt_head : ℚ)
    (hs : ℕ → ℕ → ℕ → ℚ) (mask : ℕ → ℕ → ℕ → ℕ → ℚ) (b n i j : ℕ) : ℚ :=
  (attention_scores_cc p hs b n i j + claim_content_position_logits p hs b n i j) /
      sqrt_head +
    mask b n i j

/-- The `(S, B*heads, head_size)` reshape round-trips: splitting the
flattened index `b * heads + n` recovers `(b, n)` when `n < heads`. -/
lemma key_position_scores_r_t_eq (p : NeZhaAttnParams)
    (hs : ℕ → ℕ → ℕ → ℚ) (b n i j : ℕ) (hn : n < p.num_attention_heads) :
    key_position_scores_r_t p hs b n i j =
      claim_content_position_logits p hs b n i j := by
  have hpos : 0 < p.num_attention_heads := Nat.lt_of_le_of_lt (Nat.zero_le n) hn
  have hdiv : (b * p.num_attention_heads + n) / p.num_attention_heads = b := by
    rw [mul_comm, Nat.mul_add_div hpos, Nat.div_eq_of_lt hn, Nat.add_zero]
  have hmod : (b * p.num_attention_heads + n) % p.num_attention_heads = n := by
    rw [mul_comm, Nat.mul_add_mod]
    exact Nat.mod_eq_of_lt hn
  unfold key_position_scores_r_t key_position_scores query_layer_r
    claim_content_position_logits
  rw [hdiv, hmod]

lemma attention_scores_eq_claim (p : NeZhaAttnParams) (sqrt_head : ℚ)
    (hs : ℕ → ℕ → ℕ → ℚ) (mask : ℕ → ℕ → ℕ → ℕ → ℚ) (b n i j : ℕ)
    (hn : n < p.num_attention_heads) :
    attention_scores p sqrt_head hs mask b n i j =
      claim_combined_logits p sqrt_head hs mask b n i j := by
  unfold attention_scores claim_combined_logits
  rw [key_position_scores_r_t_eq p hs b n i j hn]

/-- C2: for every in-range head index, `NeZhaAttention.forward` computes
its attention probabilities as the softmax (over the last axis) of the
combined content-content plus content-position logits scaled by
`1/sqrt(attention_head_size)` plus the additive mask, and its second
return value is exactly those post-mask, pre-softmax logits. -/
theorem C2_attention_probs_softmax_and_returned_scores
    (p : NeZhaAttnParams) (expf sqrtf : ℚ → ℚ) (sqrt_head : ℚ) (S : ℕ)
    (hs : ℕ → ℕ → ℕ → ℚ) (mask : ℕ → ℕ → ℕ → ℕ → ℚ) (b n i j : ℕ)
    (hn : n < p.num_attention_heads) :
    attention_probs p expf sqrt_head S hs mask b n i j =
      expf (claim_combined_logits p sqrt_head hs mask b n i j) /
        ∑ j2 in Finset.range S,
          expf (claim_combined_logits p sqrt_head hs mask b n i j2) ∧
    (nezha_attention_forward p expf sqrtf sqrt_head S hs mask).2 b n i j =
      claim_combined_logits p sqrt_head hs mask b n i j := by
  constructor
  · unfold attention_probs
    rw [attention_scores_eq_claim p sqrt_head hs mask b n i j hn]
    congr 1
    apply Finset.sum_congr rfl
    intro j2 _
    rw [attention_scores_eq_claim p sqrt_head hs mask b n i j2 hn]
  · exact attention_scores_eq_claim p sqrt_head hs mask b n i j hn

/-- A concrete one-head, one-dimension parameter set used by witnesses. -/
def demoParams : NeZhaAttnParams :=
  { num_attention_heads := 1
    attention_head_size := 1
    query_w := fun _ _ => 1
    query_b := fun _ => 0
    key_w := fun _ _ => 1
    key_b := fun _ => 0
    value_w := fun _ _ => 1
    value_b := fun _ => 0
    dense_w := fun _ _ => 1
    dense_b := fun _ => 0
    ln_weight := fun _ => 1
    ln_bias := fun _ => 0
    ln_eps := 0
    relative_positions_embeddings := fun _ _ _ => 0 }

/-- C2 witness: the theorem applied to the concrete one-head parameters
at head index `0`, sequence length `1`. -/
theorem C2_witness :
    attention_probs demoParams (fun q => q) 1 1 (fun _ _ _ => 1)
        (fun _ _ _ _ => 0) 0 0 0 0 =
      claim_combined_logits demoParams 1 (fun _ _ _ => 1) (fun _ _ _ _ => 0)
          0 0 0 0 /
        ∑ j2 in Finset.range 1,
          claim_combined_logits demoParams 1 (fun _ _ _ => 1)
            (fun _ _ _ _ => 0) 0 0 0 j2 ∧
    (nezha_attention_forward demoParams (fun q => q) (fun q => q) 1 1
        (fun _ _ _ => 1) (fun _ _ _ _ => 0)).2 0 0 0 0 =
      claim_combined_logits demoParams 1 (fun _ _ _ => 1) (fun _ _ _ _ => 0)
        0 0 0 0 :=
  C2_attention_probs_softmax_and_returned_scores demoParams (fun q => q)
    (fun q => q) 1 1 (fun _ _ _ => 1) (fun _ _ _ _ => 0) 0 0 0 0 (by decide)

/-! ## Standard scaled dot-product attention (claim-side reference for
the refinement claim): query/key/value projections, `Q Kᵗ / sqrt(d) +
mask`, softmax, times value, merge heads, output projection, residual
add, layer norm — with the same weights as the NeZha module. -/

def std_attention_scores (p : NeZhaAttnParams) (sqrt_head : ℚ)
    (hs : ℕ → ℕ → ℕ → ℚ) (mask : ℕ → ℕ → ℕ → ℕ → ℚ) (b n i j : ℕ) : ℚ :=
  attention_scores_cc p hs b n i j / sqrt_head + mask b n i j

def std_attention_probs (p : NeZhaAttnParams) (expf : ℚ → ℚ)
    (sqrt_head : ℚ) (S : ℕ) (hs : ℕ → ℕ → ℕ → ℚ)
    (mask : ℕ → ℕ → ℕ → ℕ → ℚ) (b n i j : ℕ) : ℚ :=
  expf (std_attention_scores p sqrt_head hs mask b n i j) /
    ∑ j2 in Finset.range S,
      expf (std_attention_scores p sqrt_head hs mask b n i j2)

def std_context_layer (p : NeZhaAttnParams) (expf : ℚ → ℚ) (sqrt_head : ℚ)
    (S : ℕ) (hs : ℕ → ℕ → ℕ → ℚ) (mask : ℕ → ℕ → ℕ → ℕ → ℚ)
    (b n i d : ℕ) : ℚ :=
  ∑ j in Finset.range S,
    std_attention_probs p expf sqrt_head S hs mask b n i j *
      value_layer p hs b n j d

def std_context_merged (p : NeZhaAttnParams) (expf : ℚ → ℚ) (sqrt_head : ℚ)
    (S : ℕ) (hs : ℕ → ℕ → ℕ → ℚ) (mask : ℕ → ℕ → ℕ → ℕ → ℚ)
    (b s h : ℕ) : ℚ :=
  std_context_layer p expf sqrt_head S hs mask b (h / p.attention_head_size) s
    (h % p.attention_head_size)

def std_projected (p : NeZhaAttnParams) (expf : ℚ → ℚ) (sqrt_head : ℚ)
    (S : ℕ) (hs : ℕ → ℕ → ℕ → ℚ) (mask : ℕ → ℕ → ℕ → ℕ → ℚ)
    (b s h : ℕ) : ℚ :=
  linearQ (p.num_attention_heads * p.attention_head_size) p.dense_w p.dense_b
    (fun k => std_context_merged p expf sqrt_head S hs mask b s k) h

def std_attention_output (p : NeZhaAttnParams) (expf sqrtf : ℚ → ℚ)
    (sqrt_head : ℚ) (S : ℕ) (hs : ℕ → ℕ → ℕ → ℚ)
    (mask : ℕ → ℕ → ℕ → ℕ → ℚ) (b s h : ℕ) : ℚ :=
  layer_norm (p.num_attention_heads * p.attention_head_size) p.ln_weight
    p.ln_bias p.ln_eps sqrtf
    (fun k => hs b s k + std_projected p expf sqrt_head S hs mask b s k) h

lemma attention_scores_zero_table (p : NeZhaAttnParams) (sqrt_head : ℚ)
    (hs : ℕ → ℕ → ℕ → ℚ) (mask : ℕ → ℕ → ℕ → ℕ → ℚ) (b n i j : ℕ)
    (hzero : ∀ i2 j2 d, p.relative_positions_embeddings i2 j2 d = 0) :
    attention_scores p sqrt_head hs mask b n i j =
      std_attention_scores p sqrt_head hs mask b n i j := by
  unfold attention_scores std_attention_scores key_position_scores_r_t
    key_position_scores
  simp [hzero]

lemma attention_probs_zero_table (p : NeZhaAttnParams) (expf : ℚ → ℚ)
    (sqrt_head : ℚ) (S : ℕ) (hs : ℕ → ℕ → ℕ → ℚ)
    (mask : ℕ → ℕ → ℕ → ℕ → ℚ) (b n i j : ℕ)
    (hzero : ∀ i2 j2 d, p.relative_positions_embeddings i2 j2 d = 0) :
    attention_probs p expf sqrt_head S hs mask b n i j =
      std_attention_probs p expf sqrt_head S hs mask b n i j := by
  unfold attention_probs std_attention_probs
  rw [attention_scores_zero_table p sqrt_head hs mask b n i j hzero]
  congr 1
  apply Finset.sum_congr rfl
  intro j2 _
  rw [attention_scores_zero_table p sqrt_head hs mask b n i j2 hzero]

lemma context_layer_zero_table (p : NeZhaAttnParams) (expf : ℚ → ℚ)
    (sqrt_head : ℚ) (S : ℕ) (hs : ℕ → ℕ → ℕ → ℚ)
    (mask : ℕ → ℕ → ℕ → ℕ → ℚ) (b n i d : ℕ)
    (hzero : ∀ i2 j2 d2, p.relative_positions_embeddings i2 j2 d2 = 0) :
    context_layer p expf sqrt_head S hs mask b n i d =
      std_context_layer p expf sqrt_head S hs mask b n i d := by
  unfold context_layer context_layer_c std_context_layer
    value_position_scores_r_t value_position_scores
  have hv : (∑ j2 in Finset.range S,
      attention_probs_r p expf sqrt_head S hs mask i
          (b * p.num_attention_heads + n) j2 *
        p.relative_positions_embeddings i j2 d) = 0 := by
    apply Finset.sum_eq_zero
    intro j2 _
    rw [hzero, mul_zero]
  rw [hv, add_zero]
  apply Finset.sum_congr rfl
  intro j _
  rw [attention_probs_zero_table p expf sqrt_head S hs mask b n i j hzero]

/-- C3: with the relative-position table all-zero and dropout disabled,
`NeZhaAttention.forward` returns exactly the standard scaled dot-product
attention output (softmax of `Q Kᵗ / sqrt(d) + mask`, times value, heads
merged, projected, residual-added, layer-normed) and the standard
pre-softmax scores, with the same projection weights. -/
theorem C3_zero_table_reduces_to_standard_attention
    (p : NeZhaAttnParams) (expf sqrtf : ℚ → ℚ) (sqrt_head : ℚ) (S : ℕ)
    (hs : ℕ → ℕ → ℕ → ℚ) (mask : ℕ → ℕ → ℕ → ℕ → ℚ)
    (hzero : ∀ i j d, p.relative_positions_embeddings i j d = 0) :
    (∀ b s h,
      (nezha_attention_forward p expf sqrtf sqrt_head S hs mask).1 b s h =
        std_attention_output p expf sqrtf sqrt_head S hs mask b s h) ∧
    (∀ b n i j,
      (nezha_attention_forward p expf sqrtf sqrt_head S hs mask).2 b n i j =
        std_attention_scores p sqrt_head hs mask b n i j) := by
  constructor
  · intro b s h
    unfold nezha_attention_forward std_attention_output
    simp only
    congr 1
    funext k
    congr 1
    unfold projected_context_layer std_projected linearQ
    congr 1
    apply Finset.sum_congr rfl
    intro k2 _
    simp only [context_layer_merged, std_context_merged]
    rw [context_layer_zero_table p expf sqrt_head S hs mask b
      (k2 / p.attention_head_size) s (k2 % p.attention_head_size) hzero]
  · intro b n i j
    exact attention_scores_zero_table p sqrt_head hs mask b n i j hzero

/-- C3 witness: the concrete one-head parameters carry an all-zero
table, so the reduction applies to them directly. -/
theorem C3_witness :
    (∀ b s h,
      (nezha_attention_forward demoParams (fun q => q) (fun q => q) 1 1
          (fun _ _ _ => 1) (fun _ _ _ _ => 0)).1 b s h =
        std_attention_output demoParams (fun q => q) (fun q => q) 1 1
          (fun _ _ _ => 1) (fun _ _ _ _ => 0) b s h) ∧
    (∀ b n i j,
      (nezha_attention_forward demoParams (fun q => q) (fun q => q) 1 1
          (fun _ _ _ => 1) (fun _ _ _ _ => 0)).2 b n i j =
        std_attention_scores demoParams 1 (fun _ _ _ => 1)
          (fun _ _ _ _ => 0) b n i j) :=
  C3_zero_table_reduces_to_standard_attention demoParams (fun q => q)
    (fun q => q) 1 1 (fun _ _ _ => 1) (fun _ _ _ _ => 0)
    (fun _ _ _ => rfl)

/-! ## NeZhaModel.forward attention-mask handling
(nezha/modeling.py lines 610-626) -/

/-- Lines 612-618: default a missing mask to `paddle.ones_like(input_ids)`,
unsqueeze to `(B, 1, 1, S)` (broadcast over the head and query axes), and
convert to the additive bias `(1 - mask) * -10000`. -/
def nezha_extended_attention_mask (attention_mask : Option (ℕ → ℕ → ℚ)) :
    ℕ → ℕ → ℕ → ℕ → ℚ :=
  let am : ℕ → ℕ → ℚ :=
    match attention_mask with
    | none => fun _ _ => 1
    | some m => m
  fun b _n _i j => (1 - am b j) * (-10000)

/-- Model of `NeZhaEncoder.forward` (lines 266-274): every layer of the stack is
invoked with the same attention mask; layers are abstracted as functions
of (hidden states, mask). -/
def nezha_encoder_forward
    (layers : List ((ℕ → ℕ → ℕ → ℚ) → (ℕ → ℕ → ℕ → ℕ → ℚ) → (ℕ → ℕ → ℕ → ℚ)))
    (hidden_states : ℕ → ℕ → ℕ → ℚ) (mask : ℕ → ℕ → ℕ → ℕ → ℚ) :
    ℕ → ℕ → ℕ → ℚ :=
  layers.foldl (fun h layer => layer h mask) hidden_states

/-- Model of `NeZhaModel.forward` (lines 612-623), from the embedding output on:
the encoder stack receives the extended additive mask. -/
def nezha_model_encode (attention_mask : Option (ℕ → ℕ → ℚ))
    (layers : List ((ℕ → ℕ → ℕ → ℚ) → (ℕ → ℕ → ℕ → ℕ → ℚ) → (ℕ → ℕ → ℕ → ℚ)))
    (embedding_output : ℕ → ℕ → ℕ → ℚ) : ℕ → ℕ → ℕ → ℚ :=
  nezha_encoder_forward layers embedding_output
    (nezha_extended_attention_mask attention_mask)

/-- C10: with `attention_mask=None` the substituted all-ones mask makes
the extended additive mask `(1 - mask) * -10000` zero everywhere (no
position suppressed), and in general a 0/1 mask entry becomes `-10000`
at 0-entries and `0` at 1-entries; the encoder stack hands that very
tensor to each layer. -/
theorem C10_extended_attention_mask
    (m : ℕ → ℕ → ℚ) (b n i j : ℕ) (h01 : m b j = 0 ∨ m b j = 1) :
    (∀ b2 n2 i2 j2 : ℕ, nezha_extended_attention_mask none b2 n2 i2 j2 = 0) ∧
    nezha_extended_attention_mask (some m) b n i j =
      (if m b j = 0 then -10000 else 0) ∧
    (∀ layers embedding_output,
      nezha_model_encode (some m) layers embedding_output =
        nezha_encoder_forward layers embedding_output
          (nezha_extended_attention_mask (some m))) := by
  refine ⟨?_, ?_, ?_⟩
  · intro b2 n2 i2 j2
    simp [nezha_extended_attention_mask]
  · unfold nezha_extended_attention_mask
    cases h01 with
    | inl h0 => simp [h0]
    | inr h1 => simp [h1]
  · intro layers embedding_output
    rfl

/-- C10 witness: a concrete 0/1 mask evaluated at a masked entry. -/
theorem C10_witness :
    (∀ b2 n2 i2 j2 : ℕ, nezha_extended_attention_mask none b2 n2 i2 j2 = 0) ∧
    nezha_extended_attention_mask (some (fun _ j => if j = 0 then 0 else 1))
        0 0 0 0 =
      (if (fun _ j => if j = 0 then (0 : ℚ) else 1) 0 0 = 0 then -10000 else 0) ∧
    (∀ layers embedding_output,
      nezha_model_encode (some (fun _ j => if j = 0 then (0 : ℚ) else 1))
          layers embedding_output =
        nezha_encoder_forward layers embedding_output
          (nezha_extended_attention_mask
            (some (fun _ j => if j = 0 then (0 : ℚ) else 1)))) :=
  C10_extended_attention_mask (fun _ j => if j = 0 then 0 else 1) 0 0 0 0
    (by simp)

end PaddleNLP
